import Mathlib

/-!
# Verification of the Bottlerocket SSM-parameter audit scripts

Shallow embedding of the three core components of the repository:

* `get_ssm_parameter_name` (src/getkeyvalues.py) — the name-to-path translator;
* `compare_region_results` (src/comparenew.py) — the reconciliation engine;
* `filter_versions` / `parse_version` (src/processresult.py) — the version gate.

Python strings are modelled as `List Char` internally (with `String` at the
boundaries), Python lists as `List`, Python dicts as association lists in
insertion order, and JSON-like dynamic values as the inductive `Json`.
A Python function that can raise an uncaught exception is modelled with
`PyResult`, whose `exn` constructor stands for an exception propagating out.
-/

/-- Result of running a piece of Python code: either a value, or an uncaught
exception propagating out of the modelled function. -/
inductive PyResult (α : Type) where
  | ok : α → PyResult α
  | exn : PyResult α
deriving DecidableEq, Repr

/-- Python `s.split(sep)` for a one-character separator, on char lists:
`"".split('-') = [""]`, `"a-b".split('-') = ["a","b"]`, `"-".split('-') = ["",""]`. -/
def splitOnChar (c : Char) : List Char → List (List Char)
  | [] => [[]]
  | x :: xs =>
    let r := splitOnChar c xs
    if x = c then [] :: r
    else
      match r with
      | [] => [[x]]
      | h :: t => (x :: h) :: t

/-- Python `sep.join(pieces)` for a one-character separator, on char lists. -/
def joinWith (c : Char) : List (List Char) → List Char
  | [] => []
  | [x] => x
  | x :: xs => x ++ c :: joinWith c xs

/-- Python `list.insert(i, x)` (clamping, like Python slices). -/
def pyInsert (i : Nat) (x : α) (xs : List α) : List α :=
  xs.take i ++ x :: xs.drop i

/-- Python `list.index(x)`: index of the first occurrence; only meaningful when
`x` is a member (the source guards every use with a membership test). -/
def pyIndexOf [DecidableEq α] (x : α) : List α → Nat
  | [] => 0
  | y :: ys => if y = x then 0 else pyIndexOf x ys + 1

/-- Decimal digit characters to the number they denote. -/
def digitsToNat (s : List Char) : Nat :=
  s.foldl (fun acc c => acc * 10 + (c.toNat - 48)) 0

/-- Modelled from the spec: the external `packaging.version` parser used by
src/processresult.py is a third-party library; per the spec, "Version
comparison uses standard dotted-release-number semantics (numeric segment-wise
comparison)" and "an engineer should pick any release-version comparator with
this numeric-segment behavior". The model accepts exactly the plain dotted
release numbers (nonempty decimal groups separated by `.`) and yields the
release as a list of numeric segments; anything else is unparseable. -/
def parseRelease (s : List Char) : Option (List Nat) :=
  let groups := splitOnChar '.' s
  if groups.all (fun g => !g.isEmpty && g.all Char.isDigit) then
    some (groups.map digitsToNat)
  else none

/-- Pad a release with trailing zero segments up to length `n`
(release comparison treats `1.14` and `1.14.0` as equal). -/
def padZeros (n : Nat) (xs : List Nat) : List Nat :=
  xs ++ List.replicate (n - xs.length) 0

/-- Lexicographic comparison of two equal-length segment lists. -/
def lexCmp : List Nat → List Nat → Ordering
  | [], _ => .eq
  | _ :: _, [] => .eq
  | x :: xs, y :: ys =>
    if x < y then .lt else if y < x then .gt else lexCmp xs ys

/-- Modelled from the spec: ordering of two parsed releases — numeric
segment-wise, shorter release padded with zeros. -/
def verCmp (a b : List Nat) : Ordering :=
  lexCmp (padZeros b.length a) (padZeros a.length b)

/-- Test `a >= b` on parsed releases. -/
def verGe (a b : List Nat) : Bool :=
  verCmp a b ≠ Ordering.lt

/-- Test `a < b` on parsed releases. -/
def verLt (a b : List Nat) : Bool :=
  verCmp a b = Ordering.lt

/-! ## NameTranslator — src/getkeyvalues.py, `get_ssm_parameter_name` -/

/-- The fields computed by `get_ssm_parameter_name` before the final
version-string choice (`variant`, `arch`, `version`, `commit_sha` locals). -/
structure ParsedName where
  variant : List Char
  arch : List Char
  version : List Char
  commit_sha : List Char
deriving DecidableEq, Repr

/-- Lines 128–139 of src/getkeyvalues.py: the family boundary.  Returns the
`variant` string and the `arch_index`.  `'nvidia' in parts` is tested before
`'fips'`; otherwise the variant is `parts[2:5]` and the index is 5. -/
def familyBoundary (parts : List (List Char)) : List Char × Nat :=
  if "nvidia".data ∈ parts then
    let i := pyIndexOf "nvidia".data parts
    (joinWith '-' ((parts.take (i + 1)).drop 2), i + 1)
  else if "fips".data ∈ parts then
    let i := pyIndexOf "fips".data parts
    (joinWith '-' ((parts.take (i + 1)).drop 2), i + 1)
  else
    (joinWith '-' ((parts.take 5).drop 2), 5)

/-- Line 120, `ami_name.split('-')` — the raw token list. -/
def rawTokens (ami_name : String) : List (List Char) :=
  splitOnChar '-' ami_name.data

/-- Lines 124–126: insert the literal `aws` at index 2 when the token there is
not `aws`.  (Reached only when there are at least 7 tokens, so index 2 exists
and the `getD` default is never used.) -/
def correctedTokens (parts : List (List Char)) : List (List Char) :=
  if parts.getD 2 [] ≠ "aws".data then pyInsert 2 "aws".data parts else parts

/-- Lines 119–158 of src/getkeyvalues.py: split, length check, `aws`
correction, family boundary, architecture lookup and normalization, version /
commit-SHA extraction with the `"unknown"` fallbacks, and `v`-stripping.
`ok none` is Python `return None`; `exn` is an uncaught `IndexError` from
`parts[arch_index]` (the only fallible operation: every other index the code
uses is guarded, and slices cannot fail). -/
def parseAmiName (ami_name : String) : PyResult (Option ParsedName) :=
  let parts0 := rawTokens ami_name
  if parts0.length < 7 then .ok none
  else
    let parts := correctedTokens parts0
    let fb := familyBoundary parts
    match parts.get? fb.2 with
    | none => .exn
    | some arch0 =>
      let arch := if arch0 = "aarch64".data then "arm64".data else arch0
      let version_parts := (parts.drop (fb.2 + 1)).filter (fun p => p ≠ "v1".data)
      let version0 :=
        if 2 ≤ version_parts.length then
          version_parts.getD (version_parts.length - 2) []
        else "unknown".data
      let commit_sha :=
        if 2 ≤ version_parts.length then
          (version_parts.getD (version_parts.length - 1) []).take 8
        else if version_parts.length ≠ 0 then
          (version_parts.getD (version_parts.length - 1) []).take 8
        else "unknown".data
      let version := match version0 with
        | 'v' :: rest => rest
        | v => v
      .ok (some ⟨fb.1, arch, version, commit_sha⟩)

/-- Lines 160–167: the trailing version segment — `version-commit_sha` when the
commit is requested and differs from the version, else `version` alone. -/
def versionString (include_commit : Bool) (pn : ParsedName) : List Char :=
  if include_commit then
    if pn.version ≠ pn.commit_sha then pn.version ++ '-' :: pn.commit_sha
    else pn.version
  else pn.version

/-- Line 169: the returned f-string. -/
def mkPath (include_commit : Bool) (pn : ParsedName) : List Char :=
  "aws/service/bottlerocket/".data ++ pn.variant ++ '/' :: pn.arch ++
    '/' :: versionString include_commit pn ++ "/image_id".data

/-- Function `get_ssm_parameter_name(ami_name, include_commit)` of src/getkeyvalues.py:
`ok none` = Python `None`, `ok (some p)` = the returned path, `exn` = an
uncaught exception. -/
def get_ssm_parameter_name (ami_name : String) (include_commit : Bool) :
    PyResult (Option String) :=
  match parseAmiName ami_name with
  | .exn => .exn
  | .ok none => .ok none
  | .ok (some pn) => .ok (some (String.mk (mkPath include_commit pn)))

/-! ## ReconciliationEngine — src/comparenew.py, `compare_region_results` -/

/-- One entry of the `mismatched` list (lines 81–85): the key and both values. -/
structure Mismatch where
  key : String
  s3_value : String
  ssm_value : String
deriving DecidableEq, Repr

/-- The four result lists built by `compare_region_results` (lines 67–72). -/
structure Comparison where
  matching : List String
  mismatched : List Mismatch
  only_in_s3 : List String
  only_in_ssm : List String
deriving DecidableEq, Repr

/-- Python dict lookup on an association list (first binding wins). -/
def lookupA (m : List (String × String)) (k : String) : Option String :=
  match m with
  | [] => none
  | (k', v) :: rest => if k' = k then some v else lookupA rest k

/-- The keys of a mapping. -/
def keysOf (m : List (String × String)) : List String :=
  m.map Prod.fst

/-- Line 74, `set(s3_data.keys()) | set(ssm_data.keys())`: the union of the two
key sets.  Python set iteration order is unspecified; the model enumerates the
union in first-appearance order, without duplicates. -/
def unionKeys (s3_data ssm_data : List (String × String)) : List String :=
  (keysOf s3_data ++ keysOf ssm_data).dedup

/-- Lines 77–89, the body of the `for key in all_keys` loop: place `key` into
exactly one of the four lists.  `if key in s3_data and key in ssm_data` /
`elif key in s3_data` / `else`. -/
def compareStep (s3_data ssm_data : List (String × String))
    (comp : Comparison) (key : String) : Comparison :=
  match lookupA s3_data key, lookupA ssm_data key with
  | some a, some b =>
    if a = b then { comp with matching := comp.matching ++ [key] }
    else { comp with mismatched := comp.mismatched ++ [⟨key, a, b⟩] }
  | some _, none => { comp with only_in_s3 := comp.only_in_s3 ++ [key] }
  | none, _ => { comp with only_in_ssm := comp.only_in_ssm ++ [key] }

/-- Function `compare_region_results(s3_data, ssm_data)` of src/comparenew.py:
start from the four empty lists and run the loop over the union of keys. -/
def compare_region_results (s3_data ssm_data : List (String × String)) :
    Comparison :=
  (unionKeys s3_data ssm_data).foldl (compareStep s3_data ssm_data)
    ⟨[], [], [], []⟩

/-! ## VersionGate — src/processresult.py -/

/-- A JSON-like Python value: string, dict (association list in insertion
order), list, or any other scalar (collapsed to `null`; the version gate never
inspects non-string scalars). -/
inductive Json where
  | str : String → Json
  | obj : List (String × Json) → Json
  | arr : List Json → Json
  | null : Json

/-- Function `parse_version(path)` of src/processresult.py (lines 4–12): split the path
on `/`; with at least two segments, take the second-to-last segment, keep the
part before its first `-`, and parse it as a release version (`none` models
both the `InvalidVersion` fallback and the short-path `return None`). -/
def parse_version (path : String) : Option (List Nat) :=
  let parts := splitOnChar '/' path.data
  if 2 ≤ parts.length then
    parseRelease ((splitOnChar '-' (parts.getD (parts.length - 2) [])).getD 0 [])
  else none

/-- The predicate of `filter_list` (lines 17–19): keep an item iff it is a
string whose `parse_version` succeeds with a release `≥ min_ver`. -/
def keepStr (min_ver : List Nat) (item : Json) : Bool :=
  match item with
  | .str s =>
    match parse_version s with
    | some v => verGe v min_ver
    | none => false
  | _ => false

/-- Function `filter_list(items)` of src/processresult.py. -/
def filter_list (min_ver : List Nat) (items : List Json) : List Json :=
  items.filter (keepStr min_ver)

/-- Python dict access `item['key']`-style lookup on a `Json` object. -/
def lookupJson (kvs : List (String × Json)) (k : String) : Option Json :=
  match kvs with
  | [] => none
  | (k', v) :: rest => if k' = k then some v else lookupJson rest k

/-- The predicate of `filter_dict` (lines 21–23) on one item, with its failure
modes: `item['key']` raises on a non-dict item or a missing key, and
`parse_version` raises on a non-string value (only `InvalidVersion` is
caught). -/
def keepDict (min_ver : List Nat) (item : Json) : PyResult Bool :=
  match item with
  | .obj kvs =>
    match lookupJson kvs "key" with
    | some (.str s) =>
      .ok (match parse_version s with
           | some v => verGe v min_ver
           | none => false)
    | some _ => .exn
    | none => .exn
  | _ => .exn

/-- Function `filter_dict(items)` of src/processresult.py: the list comprehension,
evaluated left to right, aborting at the first exception. -/
def filter_dict (min_ver : List Nat) : List Json → PyResult (List Json)
  | [] => .ok []
  | it :: rest =>
    match keepDict min_ver it with
    | .exn => .exn
    | .ok b =>
      match filter_dict min_ver rest with
      | .exn => .exn
      | .ok r => .ok (if b then it :: r else r)

mutual

/-- The recursive body of `filter_versions` (lines 25–37) on one value:
dicts have their entries rewritten, lists have their dict elements rewritten,
anything else is left as is. -/
def filterGo (min_ver : List Nat) : Json → PyResult Json
  | .obj kvs =>
    match filterFields min_ver kvs with
    | .ok kvs' => .ok (.obj kvs')
    | .exn => .exn
  | .arr items =>
    match filterItems min_ver items with
    | .ok its => .ok (.arr its)
    | .exn => .exn
  | j => .ok j

/-- Lines 26–33, the `for key, value in data.items()` loop: a list value under
one of the four comparison keys goes through `filter_list`, a list under
`wrong_owner` goes through `filter_dict`, a dict value is filtered
recursively, and any other value is untouched. -/
def filterFields (min_ver : List Nat) :
    List (String × Json) → PyResult (List (String × Json))
  | [] => .ok []
  | (k, v) :: rest =>
    let v' : PyResult Json :=
      match v with
      | .arr items =>
        if k ∈ (["matching", "mismatched", "only_in_s3", "only_in_ssm"] : List String) then
          .ok (.arr (filter_list min_ver items))
        else if k = "wrong_owner" then
          match filter_dict min_ver items with
          | .ok its => .ok (.arr its)
          | .exn => .exn
        else .ok (.arr items)
      | .obj kvs2 =>
        match filterFields min_ver kvs2 with
        | .ok r => .ok (.obj r)
        | .exn => .exn
      | other => .ok other
    match v' with
    | .exn => .exn
    | .ok v'' =>
      match filterFields min_ver rest with
      | .exn => .exn
      | .ok rest' => .ok ((k, v'') :: rest')

/-- Lines 34–37, the `for item in data` loop: dict elements are filtered
recursively, all other elements are untouched. -/
def filterItems (min_ver : List Nat) : List Json → PyResult (List Json)
  | [] => .ok []
  | it :: rest =>
    let it' : PyResult Json :=
      match it with
      | .obj kvs =>
        match filterFields min_ver kvs with
        | .ok r => .ok (.obj r)
        | .exn => .exn
      | other => .ok other
    match it' with
    | .exn => .exn
    | .ok it'' =>
      match filterItems min_ver rest with
      | .exn => .exn
      | .ok rest' => .ok (it'' :: rest')

end

/-- Function `filter_versions(data, min_version)` of src/processresult.py.  The Python
function mutates `data` in place and returns `None`; the model returns the
state of `data` after the call (`exn` for an uncaught exception — either
`version.parse(min_version)` raising `InvalidVersion` on line 15, or an error
escaping `filter_dict`). -/
def filter_versions (data : Json) (min_version : String) : PyResult Json :=
  match parseRelease min_version.data with
  | none => .exn
  | some min_ver => filterGo min_ver data

/-! ## Auxiliary predicates used to state and prove the claims -/

/-- Key `k` is present in both mappings with equal values (`matching` condition). -/
def matchesB (s3_data ssm_data : List (String × String)) (k : String) : Bool :=
  match lookupA s3_data k, lookupA ssm_data k with
  | some a, some b => if a = b then true else false
  | _, _ => false

/-- Key `k` is present in both mappings with differing values (`mismatched`). -/
def mismatchesB (s3_data ssm_data : List (String × String)) (k : String) : Bool :=
  match lookupA s3_data k, lookupA ssm_data k with
  | some a, some b => if a = b then false else true
  | _, _ => false

/-- Key `k` is present only in the left mapping (`only_in_s3`). -/
def onlyS3B (s3_data ssm_data : List (String × String)) (k : String) : Bool :=
  match lookupA s3_data k, lookupA ssm_data k with
  | some _, none => true
  | _, _ => false

/-- Key `k` is absent from the left mapping (the `else` branch, `only_in_ssm`). -/
def onlySsmB (s3_data ssm_data : List (String × String)) (k : String) : Bool :=
  match lookupA s3_data k, lookupA ssm_data k with
  | none, _ => true
  | _, _ => false

/-- The mismatch record built on lines 81–85 for a key present in both
mappings (the defaults are never used there). -/
def mkMis (s3_data ssm_data : List (String × String)) (k : String) : Mismatch :=
  ⟨k, (lookupA s3_data k).getD "", (lookupA ssm_data k).getD ""⟩

/-- Exactly one of four statements holds. -/
def ExactlyOne (p1 p2 p3 p4 : Prop) : Prop :=
  (p1 ∨ p2 ∨ p3 ∨ p4) ∧ ¬(p1 ∧ p2) ∧ ¬(p1 ∧ p3) ∧ ¬(p1 ∧ p4) ∧
    ¬(p2 ∧ p3) ∧ ¬(p2 ∧ p4) ∧ ¬(p3 ∧ p4)

/-- A structured comparison entry as the spec describes them: a dict whose
`key` field is a string. -/
def wfEntry (it : Json) : Bool :=
  match it with
  | .obj kvs =>
    match lookupJson kvs "key" with
    | some (.str _) => true
    | _ => false
  | _ => false

/-- The spec's keep-condition for structured entries: the entry's `key`
field's extracted version is parseable and `≥` the minimum version. -/
def keepDictB (min_ver : List Nat) (it : Json) : Bool :=
  match it with
  | .obj kvs =>
    match lookupJson kvs "key" with
    | some (.str s) =>
      match parse_version s with
      | some v => verGe v min_ver
      | none => false
    | _ => false
  | _ => false


/-! ## Helper lemmas -/

theorem lookupA_isSome_iff (m : List (String × String)) (k : String) :
    (lookupA m k).isSome ↔ k ∈ keysOf m := by
  induction m with
  | nil => simp [lookupA, keysOf]
  | cons hd tl ih =>
    obtain ⟨k', v⟩ := hd
    by_cases h : k' = k
    · subst h
      simp [lookupA, keysOf]
    · simp [lookupA, keysOf, h, ih, Ne.symm h]

theorem mem_unionKeys (s3_data ssm_data : List (String × String)) (k : String) :
    k ∈ unionKeys s3_data ssm_data ↔ k ∈ keysOf s3_data ∨ k ∈ keysOf ssm_data := by
  simp [unionKeys, List.mem_dedup, List.mem_append]

theorem foldl_compareStep (s3_data ssm_data : List (String × String))
    (keys : List String) :
    ∀ comp : Comparison,
      keys.foldl (compareStep s3_data ssm_data) comp =
        ⟨comp.matching ++ keys.filter (matchesB s3_data ssm_data),
         comp.mismatched ++
           (keys.filter (mismatchesB s3_data ssm_data)).map (mkMis s3_data ssm_data),
         comp.only_in_s3 ++ keys.filter (onlyS3B s3_data ssm_data),
         comp.only_in_ssm ++ keys.filter (onlySsmB s3_data ssm_data)⟩ := by
  induction keys with
  | nil => intro comp; simp
  | cons k ks ih =>
    intro comp
    rw [List.foldl_cons, ih]
    rcases h1 : lookupA s3_data k with _ | a <;>
      rcases h2 : lookupA ssm_data k with _ | b
    · simp [compareStep, matchesB, mismatchesB, onlyS3B, onlySsmB, h1, h2,
        List.filter_cons]
    · simp [compareStep, matchesB, mismatchesB, onlyS3B, onlySsmB, h1, h2,
        List.filter_cons]
    · simp [compareStep, matchesB, mismatchesB, onlyS3B, onlySsmB, h1, h2,
        List.filter_cons]
    · by_cases hab : a = b
      · simp [compareStep, matchesB, mismatchesB, onlyS3B, onlySsmB, h1, h2,
          hab, List.filter_cons]
      · simp [compareStep, matchesB, mismatchesB, onlyS3B, onlySsmB, mkMis,
          h1, h2, hab, List.filter_cons]

theorem compare_region_results_eq (s3_data ssm_data : List (String × String)) :
    compare_region_results s3_data ssm_data =
      ⟨(unionKeys s3_data ssm_data).filter (matchesB s3_data ssm_data),
       ((unionKeys s3_data ssm_data).filter (mismatchesB s3_data ssm_data)).map
         (mkMis s3_data ssm_data),
       (unionKeys s3_data ssm_data).filter (onlyS3B s3_data ssm_data),
       (unionKeys s3_data ssm_data).filter (onlySsmB s3_data ssm_data)⟩ := by
  rw [compare_region_results, foldl_compareStep]
  simp

theorem mismatched_key_mem (s3_data ssm_data : List (String × String)) (k : String) :
    (∃ m ∈ (compare_region_results s3_data ssm_data).mismatched, m.key = k) ↔
      (k ∈ unionKeys s3_data ssm_data ∧ mismatchesB s3_data ssm_data k = true) := by
  rw [compare_region_results_eq]
  constructor
  · rintro ⟨m, hm, hk⟩
    simp only [List.mem_map] at hm
    obtain ⟨k', hk', hmk⟩ := hm
    rw [List.mem_filter] at hk'
    have hkey : k' = k := by
      have h := congrArg Mismatch.key hmk
      rw [← hk]
      simpa [mkMis] using h
    exact hkey ▸ ⟨hk'.1, hk'.2⟩
  · rintro ⟨hk, hcond⟩
    exact ⟨mkMis s3_data ssm_data k,
      List.mem_map_of_mem _ (List.mem_filter.2 ⟨hk, hcond⟩), rfl⟩

/-- C4: for every pair of mappings and every key `k` in the union of their key
sets, `compare_region_results` places `k` in exactly one of the four result
lists: in `matching` iff `k` is in both with equal values, in `mismatched`
(recorded with both values) iff `k` is in both with unequal values, in
`only_in_s3` iff `k` is only in the left mapping, and in `only_in_ssm` iff `k`
is only in the right mapping. -/
theorem compare_partitions (s3_data ssm_data : List (String × String)) (k : String)
    (hk : k ∈ unionKeys s3_data ssm_data) :
    (k ∈ (compare_region_results s3_data ssm_data).matching ↔
        ∃ v, lookupA s3_data k = some v ∧ lookupA ssm_data k = some v)
    ∧ (∀ a b, Mismatch.mk k a b ∈ (compare_region_results s3_data ssm_data).mismatched ↔
        (lookupA s3_data k = some a ∧ lookupA ssm_data k = some b ∧ a ≠ b))
    ∧ (k ∈ (compare_region_results s3_data ssm_data).only_in_s3 ↔
        ((lookupA s3_data k).isSome ∧ lookupA ssm_data k = none))
    ∧ (k ∈ (compare_region_results s3_data ssm_data).only_in_ssm ↔
        (lookupA s3_data k = none ∧ (lookupA ssm_data k).isSome))
    ∧ ExactlyOne (k ∈ (compare_region_results s3_data ssm_data).matching)
        (∃ m ∈ (compare_region_results s3_data ssm_data).mismatched, m.key = k)
        (k ∈ (compare_region_results s3_data ssm_data).only_in_s3)
        (k ∈ (compare_region_results s3_data ssm_data).only_in_ssm) := by
  have hsome : (lookupA s3_data k).isSome ∨ (lookupA ssm_data k).isSome := by
    rcases (mem_unionKeys s3_data ssm_data k).1 hk with h | h
    · exact Or.inl ((lookupA_isSome_iff _ _).2 h)
    · exact Or.inr ((lookupA_isSome_iff _ _).2 h)
  have hmis := mismatched_key_mem s3_data ssm_data k
  rw [compare_region_results_eq] at *
  refine ⟨?_, ?_, ?_, ?_, ?_⟩
  · rw [List.mem_filter]
    simp only [hk, true_and]
    rcases h1 : lookupA s3_data k with _ | a <;>
      rcases h2 : lookupA ssm_data k with _ | b <;>
      simp [matchesB, h1, h2]
    by_cases hab : a = b
    · simp [hab]
    · simp [hab, Ne.symm hab]
  · intro a b
    constructor
    · intro hm
      simp only [List.mem_map] at hm
      obtain ⟨k', hk', hmk⟩ := hm
      rw [List.mem_filter] at hk'
      have hkey : k' = k := by
        have h := congrArg Mismatch.key hmk
        simpa [mkMis] using h
      subst hkey
      have hcond := hk'.2
      rcases h1 : lookupA s3_data k' with _ | a' <;>
        rcases h2 : lookupA ssm_data k' with _ | b' <;>
        simp [mismatchesB, h1, h2] at hcond
      have hma : a' = a := by
        have h := congrArg Mismatch.s3_value hmk
        simpa [mkMis, h1] using h
      have hmb : b' = b := by
        have h := congrArg Mismatch.ssm_value hmk
        simpa [mkMis, h2] using h
      subst hma; subst hmb
      exact ⟨rfl, rfl, hcond⟩
    · rintro ⟨h1, h2, hab⟩
      have hcond : mismatchesB s3_data ssm_data k = true := by
        simp [mismatchesB, h1, h2, hab]
      refine List.mem_map.2 ⟨k, List.mem_filter.2 ⟨hk, hcond⟩, ?_⟩
      simp [mkMis, h1, h2]
  · rw [List.mem_filter]
    simp only [hk, true_and]
    rcases h1 : lookupA s3_data k with _ | a <;>
      rcases h2 : lookupA ssm_data k with _ | b <;>
      simp [onlyS3B, h1, h2]
  · rw [List.mem_filter]
    simp only [hk, true_and]
    rcases h1 : lookupA s3_data k with _ | a <;>
      rcases h2 : lookupA ssm_data k with _ | b
    · exfalso; rw [h1, h2] at hsome; simp at hsome
    · simp [onlySsmB, h1, h2]
    · simp [onlySsmB, h1, h2]
    · simp [onlySsmB, h1, h2]
  · rw [ExactlyOne]
    simp only [hmis, List.mem_filter, hk, true_and]
    rcases h1 : lookupA s3_data k with _ | a <;>
      rcases h2 : lookupA ssm_data k with _ | b
    · exfalso; rw [h1, h2] at hsome; simp at hsome
    · simp [matchesB, mismatchesB, onlyS3B, onlySsmB, h1, h2]
    · simp [matchesB, mismatchesB, onlyS3B, onlySsmB, h1, h2]
    · by_cases hab : a = b <;>
        simp [matchesB, mismatchesB, onlyS3B, onlySsmB, h1, h2, hab]

/-- Witness for C4 at a concrete pair of mappings and key. -/
theorem compare_partitions_witness :
    "k" ∈ unionKeys [("k", "1"), ("j", "2")] [("k", "3")] ∧
    ((("k" : String) ∈ (compare_region_results [("k", "1"), ("j", "2")] [("k", "3")]).matching ↔
        ∃ v, lookupA [("k", "1"), ("j", "2")] "k" = some v ∧ lookupA [("k", "3")] "k" = some v)
    ∧ (∀ a b, Mismatch.mk "k" a b ∈ (compare_region_results [("k", "1"), ("j", "2")] [("k", "3")]).mismatched ↔
        (lookupA [("k", "1"), ("j", "2")] "k" = some a ∧ lookupA [("k", "3")] "k" = some b ∧ a ≠ b))
    ∧ (("k" : String) ∈ (compare_region_results [("k", "1"), ("j", "2")] [("k", "3")]).only_in_s3 ↔
        ((lookupA [("k", "1"), ("j", "2")] "k").isSome ∧ lookupA [("k", "3")] "k" = none))
    ∧ (("k" : String) ∈ (compare_region_results [("k", "1"), ("j", "2")] [("k", "3")]).only_in_ssm ↔
        (lookupA [("k", "1"), ("j", "2")] "k" = none ∧ (lookupA [("k", "3")] "k").isSome))
    ∧ ExactlyOne (("k" : String) ∈ (compare_region_results [("k", "1"), ("j", "2")] [("k", "3")]).matching)
        (∃ m ∈ (compare_region_results [("k", "1"), ("j", "2")] [("k", "3")]).mismatched, m.key = "k")
        (("k" : String) ∈ (compare_region_results [("k", "1"), ("j", "2")] [("k", "3")]).only_in_s3)
        (("k" : String) ∈ (compare_region_results [("k", "1"), ("j", "2")] [("k", "3")]).only_in_ssm)) :=
  ⟨by decide, compare_partitions [("k", "1"), ("j", "2")] [("k", "3")] "k" (by decide)⟩

/-- C5: comparing a mapping against itself yields empty `mismatched`,
`only_in_s3` and `only_in_ssm` lists, and a `matching` list whose elements are
exactly the keys of the mapping. -/
theorem compare_self (m : List (String × String)) :
    (compare_region_results m m).mismatched = []
    ∧ (compare_region_results m m).only_in_s3 = []
    ∧ (compare_region_results m m).only_in_ssm = []
    ∧ ∀ k, k ∈ (compare_region_results m m).matching ↔ k ∈ m.map Prod.fst := by
  rw [compare_region_results_eq]
  refine ⟨?_, ?_, ?_, ?_⟩
  · simp only [List.map_eq_nil_iff]
    rw [List.filter_eq_nil_iff]
    intro k _
    rcases h1 : lookupA m k with _ | a <;> simp [mismatchesB, h1]
  · rw [List.filter_eq_nil_iff]
    intro k _
    rcases h1 : lookupA m k with _ | a <;> simp [onlyS3B, h1]
  · rw [List.filter_eq_nil_iff]
    intro k hk
    have : (lookupA m k).isSome := by
      rcases (mem_unionKeys m m k).1 hk with h | h <;>
        exact (lookupA_isSome_iff _ _).2 h
    rcases h1 : lookupA m k with _ | a
    · rw [h1] at this; simp at this
    · simp [onlySsmB, h1]
  · intro k
    rw [List.mem_filter, mem_unionKeys]
    constructor
    · rintro ⟨h, _⟩
      rcases h with h | h <;> exact h
    · intro h
      have hs : (lookupA m k).isSome := (lookupA_isSome_iff _ _).2 h
      rcases h1 : lookupA m k with _ | a
      · rw [h1] at hs; simp at hs
      · exact ⟨Or.inl h, by simp [matchesB, h1]⟩

/-- C6: the end-to-end example — `bottlerocket-aws-ecs-1-x86_64-v1.14.3-0a1b2c3d4e`
translates with the commit to
`aws/service/bottlerocket/aws-ecs-1/x86_64/1.14.3-0a1b2c3d/image_id`
(commit SHA truncated to its first 8 characters) and without the commit to
`aws/service/bottlerocket/aws-ecs-1/x86_64/1.14.3/image_id`. -/
theorem end_to_end_example :
    get_ssm_parameter_name "bottlerocket-aws-ecs-1-x86_64-v1.14.3-0a1b2c3d4e" true =
      .ok (some "aws/service/bottlerocket/aws-ecs-1/x86_64/1.14.3-0a1b2c3d/image_id")
    ∧ get_ssm_parameter_name "bottlerocket-aws-ecs-1-x86_64-v1.14.3-0a1b2c3d4e" false =
      .ok (some "aws/service/bottlerocket/aws-ecs-1/x86_64/1.14.3/image_id") := by
  decide

/-- C10: the minimum-length check runs on the raw hyphen split, before the
missing-`aws` correction — a name with exactly 6 raw tokens and no `aws` at
index 2 yields `None`, even though inserting `aws` would reach 7 tokens. -/
theorem length_check_before_aws (name : String) (b : Bool)
    (h6 : (rawTokens name).length = 6)
    (haws : (rawTokens name).getD 2 [] ≠ "aws".data) :
    get_ssm_parameter_name name b = .ok none := by
  have hlt : (rawTokens name).length < 7 := by omega
  simp [get_ssm_parameter_name, parseAmiName, hlt]

/-- Witness for C10 at a concrete 6-token name without an `aws` token. -/
theorem length_check_before_aws_witness :
    ((rawTokens "a-b-c-d-e-f").length = 6
      ∧ (rawTokens "a-b-c-d-e-f").getD 2 [] ≠ "aws".data)
    ∧ get_ssm_parameter_name "a-b-c-d-e-f" true = .ok none :=
  ⟨by decide, length_check_before_aws "a-b-c-d-e-f" true (by decide) (by decide)⟩

/-- Counterexample to C3: a name with 7 hyphen tokens whose final token is
`nvidia` makes `get_ssm_parameter_name` raise an uncaught `IndexError`
(`parts[arch_index]` with `arch_index = len(parts)`), for both values of
`include_commit`, instead of returning a path. -/
theorem translator_exn_counterexample :
    7 ≤ (rawTokens "a-b-aws-c-d-e-nvidia").length
    ∧ get_ssm_parameter_name "a-b-aws-c-d-e-nvidia" true = .exn
    ∧ get_ssm_parameter_name "a-b-aws-c-d-e-nvidia" false = .exn := by
  decide

/-- C3 (amended): the translator returns `None` for every name with fewer than
7 hyphen tokens; for every name with 7 or more tokens it returns a path string
when the architecture index chosen by the family boundary is in range of the
corrected token list, and raises an uncaught `IndexError` when that index is
out of range (which happens exactly when the first `nvidia` — or, with no
`nvidia`, the first `fips` — is the final token). -/
theorem translator_totality (name : String) (b : Bool) :
    ((rawTokens name).length < 7 → get_ssm_parameter_name name b = .ok none)
    ∧ (7 ≤ (rawTokens name).length →
        (((familyBoundary (correctedTokens (rawTokens name))).2 <
            (correctedTokens (rawTokens name)).length →
          ∃ p, get_ssm_parameter_name name b = .ok (some p))
        ∧ ((correctedTokens (rawTokens name)).length ≤
            (familyBoundary (correctedTokens (rawTokens name))).2 →
          get_ssm_parameter_name name b = .exn))) := by
  refine ⟨?_, fun h7 => ⟨?_, ?_⟩⟩
  · intro hlt
    simp [get_ssm_parameter_name, parseAmiName, hlt]
  · intro hlt2
    have hg := List.get?_eq_get hlt2
    have hparse : ∃ pn, parseAmiName name = .ok (some pn) := by
      simp only [parseAmiName, not_lt.2 h7, if_false, hg]
      exact ⟨_, rfl⟩
    obtain ⟨pn, hpn⟩ := hparse
    refine ⟨String.mk (mkPath b pn), ?_⟩
    simp [get_ssm_parameter_name, hpn]
  · intro hge
    have hg : (correctedTokens (rawTokens name)).get?
        (familyBoundary (correctedTokens (rawTokens name))).2 = none :=
      List.get?_eq_none.2 hge
    simp only [get_ssm_parameter_name, parseAmiName, not_lt.2 h7, if_false, hg]

/-- Witness for C3 (amended) at three concrete names: a short name, a regular
7-token name, and a 7-token name ending in `nvidia`. -/
theorem translator_totality_witness :
    get_ssm_parameter_name "a-b-c" true = .ok none
    ∧ (∃ p, get_ssm_parameter_name "a-b-aws-c-d-e-f" true = .ok (some p))
    ∧ get_ssm_parameter_name "a-b-aws-c-d-e-nvidia" false = .exn :=
  ⟨(translator_totality "a-b-c" true).1 (by decide),
   ((translator_totality "a-b-aws-c-d-e-f" true).2 (by decide)).1 (by decide),
   ((translator_totality "a-b-aws-c-d-e-nvidia" false).2 (by decide)).2 (by decide)⟩

/-- C7: when the token list contains both `nvidia` and `fips`, the family
boundary is determined from the position of the first `nvidia` — the variant is
the tokens from index 2 through the `nvidia` token inclusive, and the
architecture index is the following position — ignoring the `fips` rule. -/
theorem nvidia_priority (parts : List (List Char))
    (hn : "nvidia".data ∈ parts) (hf : "fips".data ∈ parts) :
    familyBoundary parts =
      (joinWith '-' ((parts.take (pyIndexOf "nvidia".data parts + 1)).drop 2),
        pyIndexOf "nvidia".data parts + 1) := by
  unfold familyBoundary
  rw [if_pos hn]

/-- Witness for C7 at a concrete token list containing both `nvidia` and
`fips`. -/
theorem nvidia_priority_witness :
    ("nvidia".data ∈ ["bottlerocket".data, "aws".data, "aws".data, "k8s".data,
        "nvidia".data, "x86_64".data, "fips".data]
      ∧ "fips".data ∈ ["bottlerocket".data, "aws".data, "aws".data, "k8s".data,
        "nvidia".data, "x86_64".data, "fips".data])
    ∧ familyBoundary ["bottlerocket".data, "aws".data, "aws".data, "k8s".data,
        "nvidia".data, "x86_64".data, "fips".data] = ("aws-k8s-nvidia".data, 5) :=
  ⟨⟨by decide, by decide⟩,
   (nvidia_priority ["bottlerocket".data, "aws".data, "aws".data, "k8s".data,
      "nvidia".data, "x86_64".data, "fips".data] (by decide) (by decide)).trans
     (by decide)⟩

theorem splitOnChar_ne_nil (c : Char) (l : List Char) : splitOnChar c l ≠ [] := by
  induction l with
  | nil => simp [splitOnChar]
  | cons x xs ih =>
    simp only [splitOnChar]
    by_cases h : x = c
    · simp [h]
    · rcases hs : splitOnChar c xs with _ | ⟨hd, tl⟩ <;> simp [h, hs]

theorem splitOnChar_append_cons (c : Char) (a b : List Char) :
    splitOnChar c (a ++ c :: b) = splitOnChar c a ++ splitOnChar c b := by
  induction a with
  | nil => simp [splitOnChar]
  | cons x xs ih =>
    by_cases h : x = c
    · subst h
      simp [List.cons_append, splitOnChar, ih]
    · rcases hs : splitOnChar c xs with _ | ⟨hd, tl⟩
      · exact absurd hs (splitOnChar_ne_nil c xs)
      · simp [List.cons_append, splitOnChar, ih, hs, h]

theorem splitOnChar_of_not_mem (c : Char) (l : List Char) (h : c ∉ l) :
    splitOnChar c l = [l] := by
  induction l with
  | nil => rfl
  | cons x xs ih =>
    have hx : x ≠ c := by
      rintro rfl
      exact h (List.mem_cons_self x xs)
    have hxs : c ∉ xs := fun hm => h (List.mem_cons_of_mem x hm)
    simp only [splitOnChar, if_neg hx, ih hxs]

theorem split_mkPath (ic : Bool) (pn : ParsedName)
    (h : '/' ∉ versionString ic pn) :
    splitOnChar '/' (mkPath ic pn) =
      splitOnChar '/' ("aws/service/bottlerocket/".data ++ pn.variant) ++
        splitOnChar '/' pn.arch ++ [versionString ic pn, "image_id".data] := by
  have himg : ("/image_id".data : List Char) = '/' :: "image_id".data := rfl
  have himg2 : splitOnChar '/' "image_id".data = ["image_id".data] := by decide
  rw [mkPath, himg]
  rw [show "aws/service/bottlerocket/".data ++ pn.variant ++ '/' :: pn.arch ++
      '/' :: versionString ic pn ++ '/' :: "image_id".data =
      ("aws/service/bottlerocket/".data ++ pn.variant) ++ '/' ::
        (pn.arch ++ '/' :: (versionString ic pn ++ '/' :: "image_id".data)) by
    simp [List.append_assoc]]
  rw [splitOnChar_append_cons, splitOnChar_append_cons, splitOnChar_append_cons,
    splitOnChar_of_not_mem _ _ h, himg2]
  simp [List.append_assoc]

/-- Counterexample to C8: on a successfully translated name whose commit token
contains a `/` character, the two paths do not split into `/`-segment lists of
the same length, so they differ in more than the second-to-last segment. -/
theorem commit_qualification_counterexample :
    get_ssm_parameter_name "a-b-aws-c-d-e-1.2-ab/cdefgh" true =
      .ok (some "aws/service/bottlerocket/aws-c-d/e/1.2-ab/cdefg/image_id")
    ∧ get_ssm_parameter_name "a-b-aws-c-d-e-1.2-ab/cdefgh" false =
      .ok (some "aws/service/bottlerocket/aws-c-d/e/1.2/image_id")
    ∧ (splitOnChar '/' "aws/service/bottlerocket/aws-c-d/e/1.2-ab/cdefg/image_id".data).length ≠
      (splitOnChar '/' "aws/service/bottlerocket/aws-c-d/e/1.2/image_id".data).length := by
  decide

/-- C8 (amended): for every name for which translation succeeds and whose
extracted version and commit-SHA prefix contain no `/` character, the paths
returned with and without the commit split into `/`-segment lists of equal
length that agree at every index except possibly the second-to-last; the two
paths are exactly equal when the version equals the 8-character commit-SHA
prefix (this last part needs no `/`-freedom). -/
theorem commit_qualification (name : String) (pn : ParsedName)
    (hp : parseAmiName name = .ok (some pn))
    (hv : '/' ∉ pn.version) (hc : '/' ∉ pn.commit_sha) :
    ∃ p1 p2 : String,
      get_ssm_parameter_name name true = .ok (some p1)
      ∧ get_ssm_parameter_name name false = .ok (some p2)
      ∧ (splitOnChar '/' p1.data).length = (splitOnChar '/' p2.data).length
      ∧ (∀ i, i ≠ (splitOnChar '/' p1.data).length - 2 →
          (splitOnChar '/' p1.data).get? i = (splitOnChar '/' p2.data).get? i)
      ∧ (pn.version = pn.commit_sha → p1 = p2) := by
  have hvs1 : '/' ∉ versionString true pn := by
    by_cases h : pn.version = pn.commit_sha
    · simp [versionString, h, hc]
    · have hv1 : versionString true pn = pn.version ++ '-' :: pn.commit_sha := by
        simp [versionString, h]
      rw [hv1]
      intro hm
      rcases List.mem_append.1 hm with hm | hm
      · exact hv hm
      · rcases List.mem_cons.1 hm with hm | hm
        · exact absurd hm (by decide)
        · exact hc hm
  have hvs2 : '/' ∉ versionString false pn := by simp [versionString, hv]
  have e1 := split_mkPath true pn hvs1
  have e2 := split_mkPath false pn hvs2
  refine ⟨String.mk (mkPath true pn), String.mk (mkPath false pn),
    by simp [get_ssm_parameter_name, hp], by simp [get_ssm_parameter_name, hp],
    ?_, ?_, ?_⟩
  · show (splitOnChar '/' (mkPath true pn)).length =
      (splitOnChar '/' (mkPath false pn)).length
    rw [e1, e2]
    simp
  · intro i hi
    rw [show (splitOnChar '/' (String.mk (mkPath true pn)).data).length =
        (splitOnChar '/' (mkPath true pn)).length from rfl, e1] at hi
    show (splitOnChar '/' (mkPath true pn)).get? i =
      (splitOnChar '/' (mkPath false pn)).get? i
    rw [e1, e2]
    rw [List.append_assoc, List.append_assoc] at *
    set L := splitOnChar '/' ("aws/service/bottlerocket/".data ++ pn.variant) ++
      splitOnChar '/' pn.arch with hL
    rw [← List.append_assoc] at hi
    rw [← List.append_assoc, ← List.append_assoc]
    have hlen : (L ++ [versionString true pn, "image_id".data]).length = L.length + 2 := by
      simp
    rw [hlen] at hi
    have hi' : i ≠ L.length := by omega
    by_cases hcase : i < L.length
    · rw [List.get?_append hcase, List.get?_append hcase]
    · have hge : L.length ≤ i := by omega
      rw [List.get?_append_right hge, List.get?_append_right hge]
      have : i - L.length = 1 ∨ 2 ≤ i - L.length := by omega
      rcases this with h | h
      · rw [h]
        rfl
      · rw [List.get?_eq_none.2 (by simpa using h), List.get?_eq_none.2 (by simpa using h)]
  · intro h
    have hvs : versionString true pn = versionString false pn := by
      simp [versionString, h]
    simp [mkPath, hvs]

/-- Witness for C8 (amended) at a concrete name whose version and commit
tokens are `/`-free. -/
theorem commit_qualification_witness :
    (parseAmiName "x-y-aws-k8s-1.24-aarch64-v1.24.3-abcdef0123" =
        .ok (some ⟨"aws-k8s-1.24".data, "arm64".data, "1.24.3".data, "abcdef01".data⟩)
      ∧ '/' ∉ "1.24.3".data ∧ '/' ∉ "abcdef01".data)
    ∧ ∃ p1 p2 : String,
      get_ssm_parameter_name "x-y-aws-k8s-1.24-aarch64-v1.24.3-abcdef0123" true = .ok (some p1)
      ∧ get_ssm_parameter_name "x-y-aws-k8s-1.24-aarch64-v1.24.3-abcdef0123" false = .ok (some p2)
      ∧ (splitOnChar '/' p1.data).length = (splitOnChar '/' p2.data).length
      ∧ (∀ i, i ≠ (splitOnChar '/' p1.data).length - 2 →
          (splitOnChar '/' p1.data).get? i = (splitOnChar '/' p2.data).get? i)
      ∧ (("1.24.3".data : List Char) = "abcdef01".data →
          p1 = p2) :=
  ⟨⟨by decide, by decide, by decide⟩,
   commit_qualification "x-y-aws-k8s-1.24-aarch64-v1.24.3-abcdef0123"
     ⟨"aws-k8s-1.24".data, "arm64".data, "1.24.3".data, "abcdef01".data⟩
     (by decide) (by decide) (by decide)⟩

theorem filter_list_of_wf (mv : List Nat) (items : List Json)
    (h : ∀ it ∈ items, wfEntry it = true) : filter_list mv items = [] := by
  rw [filter_list, List.filter_eq_nil_iff]
  intro it hit
  have hw := h it hit
  cases it with
  | str s => simp [wfEntry] at hw
  | obj kvs => simp [keepStr]
  | arr l => simp [wfEntry] at hw
  | null => simp [wfEntry] at hw

theorem filter_dict_of_wf (mv : List Nat) (items : List Json)
    (h : ∀ it ∈ items, wfEntry it = true) :
    filter_dict mv items = .ok (items.filter (keepDictB mv)) := by
  induction items with
  | nil => rfl
  | cons it rest ih =>
    have hw := h it (List.mem_cons_self it rest)
    have hrest := ih (fun x hx => h x (List.mem_cons_of_mem it hx))
    cases it with
    | obj kvs =>
      rcases hl : lookupJson kvs "key" with _ | v
      · simp [wfEntry, hl] at hw
      · cases v with
        | str s =>
          rcases hparse : parse_version s with _ | v
          · simp [filter_dict, keepDict, keepDictB, hl, hparse, hrest,
              List.filter_cons]
          · by_cases hge : verGe v mv = true <;>
              simp [filter_dict, keepDict, keepDictB, hl, hparse, hrest, hge,
                List.filter_cons]
        | obj kvs2 => simp [wfEntry, hl] at hw
        | arr l => simp [wfEntry, hl] at hw
        | null => simp [wfEntry, hl] at hw
    | str s => simp [wfEntry] at hw
    | arr l => simp [wfEntry] at hw
    | null => simp [wfEntry] at hw

/-- Counterexample to C1: a `mismatched` list holding a structured entry whose
`key` field's version `1.14.3` is parseable and `≥` the minimum `1.14.3` —
the claim says the entry is kept, but `filter_versions` returns the structure
with the `mismatched` list emptied (the entry is not a string, and the
`mismatched` key is filtered by the plain-string rule). -/
theorem mismatched_filter_counterexample :
    parse_version "a/b/1.14.3-x/image_id" = some [1, 14, 3]
    ∧ verGe [1, 14, 3] [1, 14, 3] = true
    ∧ parseRelease "1.14.3".data = some [1, 14, 3]
    ∧ filter_versions (Json.obj [("mismatched", Json.arr
        [Json.obj [("key", Json.str "a/b/1.14.3-x/image_id"),
          ("s3_value", Json.str "A"), ("ssm_value", Json.str "B")]])]) "1.14.3" =
      .ok (Json.obj [("mismatched", Json.arr [])])
    ∧ Json.obj [("mismatched", Json.arr [])] ≠
      Json.obj [("mismatched", Json.arr
        [Json.obj [("key", Json.str "a/b/1.14.3-x/image_id"),
          ("s3_value", Json.str "A"), ("ssm_value", Json.str "B")]])] := by
  refine ⟨by decide, by decide, by decide, ?_, by simp⟩
  simp only [filter_versions, filterGo, filterFields]
  rfl

/-- C1 (amended): `filter_versions` filters the `mismatched` key with the
plain-string rule, so every structured (dict) entry under `mismatched` is
dropped regardless of its version; the keep-iff-`key`-version-parseable-and-≥
rule for structured entries applies to the `wrong_owner` key instead. -/
theorem mismatched_filter (min_version : String) (mv : List Nat)
    (hm : parseRelease min_version.data = some mv)
    (items : List Json) (hwf : ∀ it ∈ items, wfEntry it = true) :
    filter_versions (Json.obj [("mismatched", Json.arr items),
        ("wrong_owner", Json.arr items)]) min_version =
      .ok (Json.obj [("mismatched", Json.arr []),
        ("wrong_owner", Json.arr (items.filter (keepDictB mv)))]) := by
  rw [filter_versions, hm]
  simp [filterGo, filterFields, filter_list_of_wf mv items hwf,
    filter_dict_of_wf mv items hwf]

/-- Witness for C1 (amended) at a single concrete structured entry. -/
theorem mismatched_filter_witness :
    (parseRelease "1.14.3".data = some [1, 14, 3]
      ∧ ∀ it ∈ [Json.obj [("key", Json.str "a/b/1.14.4-x/image_id"),
          ("s3_value", Json.str "A"), ("ssm_value", Json.str "B")]], wfEntry it = true)
    ∧ filter_versions (Json.obj
        [("mismatched", Json.arr [Json.obj [("key", Json.str "a/b/1.14.4-x/image_id"),
            ("s3_value", Json.str "A"), ("ssm_value", Json.str "B")]]),
         ("wrong_owner", Json.arr [Json.obj [("key", Json.str "a/b/1.14.4-x/image_id"),
            ("s3_value", Json.str "A"), ("ssm_value", Json.str "B")]])]) "1.14.3" =
      .ok (Json.obj [("mismatched", Json.arr []),
        ("wrong_owner", Json.arr (List.filter (keepDictB [1, 14, 3])
          [Json.obj [("key", Json.str "a/b/1.14.4-x/image_id"),
            ("s3_value", Json.str "A"), ("ssm_value", Json.str "B")]]))]) :=
  ⟨⟨by decide, by decide⟩,
   mismatched_filter "1.14.3" [1, 14, 3] (by decide)
     [Json.obj [("key", Json.str "a/b/1.14.4-x/image_id"),
       ("s3_value", Json.str "A"), ("ssm_value", Json.str "B")]] (by decide)⟩

/-- Counterexample to C2: `filter_versions` mutates its argument in place —
after the call on a structure whose `matching` list holds an entry below the
minimum version, the caller's structure is no longer the original. -/
theorem in_place_counterexample :
    filter_versions (Json.obj [("matching",
        Json.arr [Json.str "a/b/1.14.2-x/image_id"])]) "1.14.3"
      ≠ .ok (Json.obj [("matching", Json.arr [Json.str "a/b/1.14.2-x/image_id"])]) := by
  have e : filter_versions (Json.obj [("matching",
      Json.arr [Json.str "a/b/1.14.2-x/image_id"])]) "1.14.3" =
      .ok (Json.obj [("matching", Json.arr [])]) := by
    simp only [filter_versions, filterGo, filterFields]
    rfl
  rw [e]
  simp

/-- C2 (amended): `filter_versions` filters in place — the Python function
returns `None` and, after the call, the argument holds the filtered structure,
which differs from the original whenever an entry is dropped. -/
theorem in_place_mutation :
    filter_versions (Json.obj [("matching",
        Json.arr [Json.str "a/b/1.14.0-y/image_id"])]) "1.14.3" =
      .ok (Json.obj [("matching", Json.arr [])])
    ∧ Json.obj [("matching", Json.arr [])] ≠
      Json.obj [("matching", Json.arr [Json.str "a/b/1.14.0-y/image_id"])] := by
  constructor
  · simp only [filter_versions, filterGo, filterFields]
    rfl
  · simp

/-- C9: with minimum version `1.14.3`, a filtered-list entry with embedded
version `1.14.2` is excluded and one with `1.14.10` is included (so
`1.14.3 < 1.14.10` under the comparator), and an entry whose version segment
cannot be parsed is silently excluded rather than causing an error. -/
theorem version_gate_monotonic :
    filter_versions (Json.obj [("matching", Json.arr
        [Json.str "aws/service/bottlerocket/aws-ecs-1/x86_64/1.14.2-abc/image_id",
         Json.str "aws/service/bottlerocket/aws-ecs-1/x86_64/1.14.10-abc/image_id",
         Json.str "aws/service/bottlerocket/aws-ecs-1/x86_64/unknown-abc/image_id"])]) "1.14.3" =
      .ok (Json.obj [("matching", Json.arr
        [Json.str "aws/service/bottlerocket/aws-ecs-1/x86_64/1.14.10-abc/image_id"])])
    ∧ verLt [1, 14, 3] [1, 14, 10] = true
    ∧ parse_version "aws/service/bottlerocket/aws-ecs-1/x86_64/unknown-abc/image_id" = none := by
  refine ⟨?_, by decide, by decide⟩
  simp only [filter_versions, filterGo, filterFields]
  rfl
